import Mathlib

/-!
Verification development for the echo web-framework core
(main file echo.go, session middleware middleware.go).

The Go code is shallowly embedded: strings are Lean strings, Go maps
become association lists, mutable state becomes explicit state passing,
and the opaque handler/middleware interface values are represented by
identifiers interpreted through a tracing semantics, so that claims
about which middleware a dispatch executes become claims about the
event trace a dispatch produces.
-/

/-! ## String helpers mirroring the Go standard library -/

/-- Number of bytes of the UTF-8 encoding of a character. -/
def charBytes (c : Char) : Nat :=
  if c.toNat < 128 then 1
  else if c.toNat < 2048 then 2
  else if c.toNat < 65536 then 3
  else 4

/-- Byte length of a string, as computed by the Go builtin len on strings. -/
def byteLen (s : String) : Nat :=
  s.data.foldl (fun n c => n + charBytes c) 0

/-- UTF-8 encoding of a character as a list of byte values. -/
def utf8Bytes (c : Char) : List Nat :=
  let n := c.toNat
  if n < 128 then [n]
  else if n < 2048 then [192 + n / 64, 128 + n % 64]
  else if n < 65536 then [224 + n / 4096, 128 + (n / 64) % 64, 128 + n % 64]
  else [240 + n / 262144, 128 + (n / 4096) % 64, 128 + (n / 64) % 64, 128 + n % 64]

/-- Uppercase hexadecimal digit, as used by net/url escaping in Go. -/
def hexChar (n : Nat) : Char :=
  if n < 10 then Char.ofNat (48 + n) else Char.ofNat (55 + n)

/-- Escaping of one byte under the Go function url.QueryEscape:
alphanumerics and the bytes for the characters hyphen, underscore,
period and tilde stay unescaped, a space byte becomes a plus sign, and
every other byte becomes a percent sign with two uppercase hex digits. -/
def escapeByte (b : Nat) : List Char :=
  if (48 ≤ b ∧ b ≤ 57) ∨ (65 ≤ b ∧ b ≤ 90) ∨ (97 ≤ b ∧ b ≤ 122)
      ∨ b = 45 ∨ b = 95 ∨ b = 46 ∨ b = 126 then
    [Char.ofNat b]
  else if b = 32 then ['+']
  else ['%', hexChar (b / 16), hexChar (b % 16)]

/-- Embeds url.QueryEscape from the Go standard library: the string is
encoded to UTF-8 bytes and every byte is escaped individually. -/
def queryEscape (s : String) : String :=
  ⟨(s.data.flatMap utf8Bytes).flatMap escapeByte⟩

/-- Replacement of all non-overlapping occurrences of a pattern, left to
right, on character lists; embeds strings.Replace(s, pat, rep, -1) from
Go (the patterns used by the code are never empty, and for an empty
pattern this definition returns the input unchanged). The fuel argument
is initialized to the length of the subject list; every step consumes at
least one character and one unit of fuel, so the fuel never runs out. -/
def replaceFuel (pat rep : List Char) : Nat → List Char → List Char
  | 0, s => s
  | _ + 1, [] => []
  | fuel + 1, c :: rest =>
    if 0 < pat.length ∧ pat.isPrefixOf (c :: rest) then
      rep ++ replaceFuel pat rep fuel (rest.drop (pat.length - 1))
    else
      c :: replaceFuel pat rep fuel rest

/-- Embeds strings.Replace(s, pat, rep, -1) from Go. -/
def goReplace (s pat rep : String) : String :=
  ⟨replaceFuel pat.data rep.data s.data.length s.data⟩

/-- Embeds strings.HasSuffix from Go (byte suffix and character suffix
agree on valid UTF-8 data, since UTF-8 is self-synchronizing). -/
def goHasSuffix (s suf : String) : Bool :=
  suf.data.isSuffixOf s.data

/-- Embeds strings.TrimSuffix from Go. -/
def goTrimSuffix (s suf : String) : String :=
  if goHasSuffix s suf then ⟨s.data.take (s.data.length - suf.data.length)⟩ else s

/-! ## Association-list helpers mirroring Go maps -/

/-- Lookup in an association list; embeds a Go map read, the list
playing the role of the map (Go maps hold at most one pair per key). -/
def mlookup {α : Type} : List (String × α) → String → Option α
  | [], _ => none
  | (k, v) :: rest, key => if k = key then some v else mlookup rest key

/-- Removal of a key; embeds the Go builtin delete on a map. -/
def mdelete {α : Type} (val : List (String × α)) (k : String) : List (String × α) :=
  val.filter (fun kv => kv.1 != k)

/-- First value stored under a key, or the empty string; embeds
url.Values.Get from Go. -/
def vget (val : List (String × List String)) (k : String) : String :=
  match mlookup val k with
  | some (v :: _) => v
  | _ => ""

/-- Lexicographic comparison of character lists by codepoint; for valid
UTF-8 data this is exactly the byte-wise comparison Go applies to
strings, since UTF-8 preserves codepoint order. -/
def charsLe : List Char → List Char → Bool
  | [], _ => true
  | _ :: _, [] => false
  | a :: as, b :: bs => if a = b then charsLe as bs else decide (a < b)

/-- String comparison used by sort.Strings in Go. -/
def strLe (a b : String) : Bool :=
  charsLe a.data b.data

/-- Insertion step of the ascending sort. -/
def insertStr (x : String) : List String → List String
  | [] => [x]
  | y :: ys => if strLe x y then x :: y :: ys else y :: insertStr x ys

/-- Ascending sort of a list of strings; embeds sort.Strings from Go. -/
def sortStrings : List String → List String
  | [] => []
  | x :: xs => insertStr x (sortStrings xs)

theorem charsLe_total : ∀ as bs : List Char, charsLe as bs = true ∨ charsLe bs as = true := by
  intro as
  induction as with
  | nil => intro bs; left; rfl
  | cons a as ih =>
    intro bs
    cases bs with
    | nil => right; rfl
    | cons b bs =>
      by_cases hab : a = b
      · subst hab
        rcases ih bs with h | h
        · left; simpa [charsLe] using h
        · right; simpa [charsLe] using h
      · rcases lt_or_gt_of_ne hab with h | h
        · left; simp [charsLe, hab, h]
        · right; simp [charsLe, Ne.symm hab, h]

theorem charsLe_trans : ∀ as bs cs : List Char,
    charsLe as bs = true → charsLe bs cs = true → charsLe as cs = true := by
  intro as
  induction as with
  | nil => intro bs cs _ _; rfl
  | cons a as ih =>
    intro bs cs h1 h2
    cases bs with
    | nil => simp [charsLe] at h1
    | cons b bs =>
      cases cs with
      | nil => simp [charsLe] at h2
      | cons c cs =>
        by_cases hab : a = b <;> by_cases hbc : b = c
        · subst hab; subst hbc
          simp only [charsLe, if_pos rfl] at h1 h2 ⊢
          exact ih bs cs h1 h2
        · subst hab
          simp only [charsLe, if_neg hbc, decide_eq_true_eq] at h2
          simp only [charsLe, if_neg hbc]
          simpa using h2
        · subst hbc
          simp only [charsLe, if_neg hab, decide_eq_true_eq] at h1
          simp only [charsLe, if_neg hab]
          simpa using h1
        · simp only [charsLe, if_neg hab, decide_eq_true_eq] at h1
          simp only [charsLe, if_neg hbc, decide_eq_true_eq] at h2
          have hac := lt_trans h1 h2
          simp only [charsLe, if_neg (ne_of_lt hac)]
          simpa using hac

theorem strLe_total (a b : String) : strLe a b = true ∨ strLe b a = true :=
  charsLe_total a.data b.data

theorem strLe_trans {a b c : String} (h1 : strLe a b = true) (h2 : strLe b c = true) :
    strLe a c = true :=
  charsLe_trans a.data b.data c.data h1 h2

theorem mem_insertStr {z x : String} {l : List String} :
    z ∈ insertStr x l ↔ z = x ∨ z ∈ l := by
  induction l with
  | nil => simp [insertStr]
  | cons y ys ih =>
    by_cases h : strLe x y = true
    · simp [insertStr, h]
    · simp only [insertStr, if_neg h, List.mem_cons, ih]
      tauto

theorem mem_sortStrings {z : String} {l : List String} :
    z ∈ sortStrings l ↔ z ∈ l := by
  induction l with
  | nil => simp [sortStrings]
  | cons x xs ih => simp [sortStrings, mem_insertStr, ih]

theorem pairwise_insertStr {x : String} {l : List String}
    (h : List.Pairwise (fun a b => strLe a b = true) l) :
    List.Pairwise (fun a b => strLe a b = true) (insertStr x l) := by
  induction l with
  | nil => simp [insertStr]
  | cons y ys ih =>
    rcases List.pairwise_cons.mp h with ⟨hy, hys⟩
    by_cases hxy : strLe x y = true
    · simp only [insertStr, if_pos hxy]
      refine List.pairwise_cons.mpr ⟨?_, h⟩
      intro z hz
      rcases List.mem_cons.mp hz with rfl | hz
      · exact hxy
      · exact strLe_trans hxy (hy z hz)
    · simp only [insertStr, if_neg hxy]
      refine List.pairwise_cons.mpr ⟨?_, ih hys⟩
      intro z hz
      rcases mem_insertStr.mp hz with rfl | hz
      · rcases strLe_total z y with h' | h'
        · exact absurd h' hxy
        · exact h'
      · exact hy z hz

/-- The sort produced by sortStrings is ascending under the byte-order
comparison of Go. -/
theorem sorted_sortStrings (l : List String) :
    List.Pairwise (fun a b => strLe a b = true) (sortStrings l) := by
  induction l with
  | nil => simp [sortStrings]
  | cons x xs ih => exact pairwise_insertStr ih

example : goReplace "/user/:id/x" ":id/" "42/" = "/user/42/x" := by decide
example : goTrimSuffix "/user/:id" ":id" = "/user/" := by decide
example : queryEscape "a b/c" = "a+b%2Fc" := by decide
example : sortStrings ["b", "a"] = ["a", "b"] := by decide
example : byteLen ".example.com" = 12 := by decide

/-! ## Middleware chain and dispatch model (echo.go)

Handlers take the request Context; the observable effect of a dispatch
is modelled as an event trace, and a handler also produces the error it
returns. The untyped middleware values stored in the middleware slice
of the Echo struct are represented by natural-number identifiers whose
interpretation (the result of ValidMiddleware followed by Handle) is a
tracing wrapper, so that which middleware a dispatch executes is
observable in the trace. -/

/-- Events observable during one dispatch through ServeHTTP. -/
inductive Ev where
  | reset (c : Nat)
  | mwEnter (i : Nat)
  | route
  | ctxError (c : Nat) (msg : String)
  | put (c : Nat)
deriving DecidableEq

/-- A handler: given the trace so far, extends it and returns the error
result of the Handle call. -/
def Hdl : Type := List Ev → List Ev × Option String

/-- A middleware wraps a handler into a handler. -/
def MW : Type := Hdl → Hdl

/-- Interpretation of the opaque middleware value with identifier i:
entering it is recorded in the trace, then the wrapped handler runs.
This models the Handle method of the wrapped middleware. -/
def mwTag (i : Nat) : MW :=
  fun h t => h (t ++ [Ev.mwEnter i])

/-- The terminal handler produced by Router.Handle(nil): it records that
routing ran and returns the result of the matched route handler. -/
def routerTerminal (res : Option String) : Hdl :=
  fun t => (t ++ [Ev.route], res)

/-- Wrapping of a terminal handler by a list of middleware, iterating
from the last element down to the first as in chainMiddleware
(echo.go:667-676): the fold from the right applies the last middleware
first, so the first middleware of the list ends up outermost. -/
def chainList (ms : List MW) (terminal : Hdl) : Hdl :=
  ms.foldr (fun m acc => m acc) terminal

/-- State of an Echo instance for the middleware-chain and dispatch
claims: the global middleware slice, the cached composed chain head,
the result the matched route handler returns on this instance, and the
sync.Pool of request Contexts (modelled as the list of pooled Context
identifiers plus a counter for Contexts freshly allocated by pool.New).
Virtual hosts are modelled separately by findRouter; dispatch here is
the default-router path of ServeHTTP, taken whenever no virtual host
matches (in particular whenever no host was registered). -/
structure EchoSt where
  middleware : List Nat
  head : Option Hdl
  routeResult : Option String
  pool : List Nat
  fresh : Nat

/-- Embeds Echo.Use (echo.go:285-293): appends to the middleware slice.
It does not touch the cached chain head. -/
def EchoSt.use (e : EchoSt) (ms : List Nat) : EchoSt :=
  { e with middleware := e.middleware ++ ms }

/-- Embeds Echo.Clear with no arguments (echo.go:314-336, the branch
for an empty argument list): resets the middleware slice and clears the
cached chain head. -/
def EchoSt.clear (e : EchoSt) : EchoSt :=
  { e with middleware := [], head := none }

/-- Embeds Echo.chainMiddleware (echo.go:667-676): returns the cached
head if present, otherwise wraps the terminal handler of the router
with every registered middleware, last to first, and caches the
result. -/
def EchoSt.chainMiddleware (e : EchoSt) : Hdl × EchoSt :=
  match e.head with
  | some h => (h, e)
  | none =>
    let h := chainList (e.middleware.map mwTag) (routerTerminal e.routeResult)
    (h, { e with head := some h })

/-- Embeds e.pool.Get() of sync.Pool: a pooled Context if one is
available, otherwise a fresh one from pool.New. -/
def EchoSt.poolGet (e : EchoSt) : Nat × EchoSt :=
  match e.pool with
  | [] => (e.fresh, { e with fresh := e.fresh + 1 })
  | c :: rest => (c, { e with pool := rest })

/-- Embeds e.pool.Put(c) of sync.Pool. -/
def EchoSt.poolPut (e : EchoSt) (c : Nat) : EchoSt :=
  { e with pool := c :: e.pool }

/-- Embeds Echo.ServeHTTP (echo.go:693-710) on the default-router path
(no virtual host matches the request): acquire a Context from the pool,
reset it, obtain the (possibly cached) middleware chain, run it, hand a
non-nil error to c.Error, and put the Context back into the pool. -/
def EchoSt.serveHTTP (e : EchoSt) : EchoSt × List Ev :=
  let c := e.poolGet.1
  let e1 := e.poolGet.2
  let h := e1.chainMiddleware.1
  let e2 := e1.chainMiddleware.2
  let t := (h [Ev.reset c]).1
  match (h [Ev.reset c]).2 with
  | some msg => (e2.poolPut c, t ++ [Ev.ctxError c msg, Ev.put c])
  | none => (e2.poolPut c, t ++ [Ev.put c])

/-- Running the chain built from tagged middleware records the
middleware in list order, then the router, and returns the route
handler result. -/
theorem chainList_tag_trace (ids : List Nat) (res : Option String) (t : List Ev) :
    chainList (ids.map mwTag) (routerTerminal res) t =
      (t ++ ids.map Ev.mwEnter ++ [Ev.route], res) := by
  induction ids generalizing t with
  | nil => simp [chainList, routerTerminal]
  | cons i rest ih =>
    show chainList (rest.map mwTag) (routerTerminal res) (t ++ [Ev.mwEnter i]) = _
    rw [ih]
    simp

/-- Trace of a dispatch that rebuilds the chain (no cached head): the
Context is reset, the middleware run in registration order, the router
runs, a route-handler error is handed to c.Error, and the Context is
put back. -/
theorem serveHTTP_trace_of_head_none (e : EchoSt) (hh : e.head = none) :
    ∃ c, (e.serveHTTP).2 =
      [Ev.reset c] ++ e.middleware.map Ev.mwEnter ++ [Ev.route] ++
        (match e.routeResult with | some m => [Ev.ctxError c m] | none => []) ++ [Ev.put c] ∧
      c ∈ (e.serveHTTP).1.pool := by
  cases hp : e.pool with
  | nil =>
    refine ⟨e.fresh, ?_⟩
    simp only [EchoSt.serveHTTP, EchoSt.poolGet, EchoSt.chainMiddleware, EchoSt.poolPut, hp, hh,
      chainList_tag_trace]
    cases e.routeResult <;> simp
  | cons c rest =>
    refine ⟨c, ?_⟩
    simp only [EchoSt.serveHTTP, EchoSt.poolGet, EchoSt.chainMiddleware, EchoSt.poolPut, hp, hh,
      chainList_tag_trace]
    cases e.routeResult <;> simp

/-! ## Virtual-host resolution (echo.go findRouter) and host registry -/

/-- The per-pattern matching test of the fallback loop in findRouter
(echo.go:756-767): a registered pattern matches a request host when the
pattern is strictly shorter in bytes and either begins with a period
and is a suffix of the host, or ends with a period and is a prefix of
the host. The first and last byte tests of the Go code coincide with
the first and last character tests here, because the period is a single
UTF-8 byte and never occurs inside a multi-byte encoding. -/
def hostPatMatch (host pat : String) : Bool :=
  decide (byteLen pat < byteLen host) &&
    ((pat.data.head? == some '.' && pat.data.isSuffixOf host.data) ||
     (pat.data.getLast? == some '.' && pat.data.isPrefixOf host.data))

/-- Embeds Echo.findRouter (echo.go:751-770) over the table mapping a
registered host pattern to the identifier of its Router (the routers
field ranged over by the Go code; iteration order of the Go map is
modelled by the list order). Returns the chosen router and whether a
host-specific router was found. -/
def findRouter (routers : List (String × Nat)) (deflt : Nat) (host : String) : Nat × Bool :=
  if routers.isEmpty then (deflt, false)
  else
    match mlookup routers host with
    | some r => (r, true)
    | none =>
      match routers.find? (fun p => hostPatMatch host p.1) with
      | some p => (p.2, true)
      | none => (deflt, false)

/-- The Host value stored in the hosts map of Echo, reduced to the
state the host claims observe: the host name carried by its Group and
the middleware accumulated on that Group via Use. -/
structure HostM where
  host : String
  groupMW : List Nat
deriving DecidableEq

/-- Pointwise update of the entry stored under a key; embeds mutation
of the Host value a Go map entry points to. -/
def mupdate {α : Type} (l : List (String × α)) (k : String) (f : α → α) : List (String × α) :=
  l.map (fun kv => if kv.1 = k then (kv.1, f kv.2) else kv)

/-- Embeds the state effect of Echo.Host (echo.go:552-566): look the
name up in the hosts map, create and store a fresh Host with an empty
Group when absent, then register the given middleware on the Group of
the stored Host. The return statement of the Go function is the
identifier g, which is not defined anywhere in that function (the
neighbouring Echo.Group returns its local g; Echo.Host names its local
h), so the returned value has no embedding; only the update of the
hosts map is modelled. -/
def echoHost (hosts : List (String × HostM)) (name : String) (ms : List Nat) :
    List (String × HostM) :=
  let hosts1 :=
    match mlookup hosts name with
    | some _ => hosts
    | none => hosts ++ [(name, ⟨name, []⟩)]
  if ms.isEmpty then hosts1
  else mupdate hosts1 name (fun h => { h with groupMW := h.groupMW ++ ms })

/-! ## Reverse URL generation (echo.go URI) -/

/-- A registered route, reduced to the fields URI reads: the registered
path pattern, the ordered path-parameter names, the format string used
by the positional branches, and the route name. -/
structure Route where
  Path : String
  Params : List String
  Format : String
  Name : String
deriving DecidableEq

/-- The router state URI reads: the route slice and the nroute map from
route name to the list of indices registered under that name. -/
structure RouterM where
  routes : List Route
  nroute : List (String × List Nat)
deriving DecidableEq

/-- The handler argument of URI after the type switch at echo.go:584-595:
either a value that resolves to a route name (a string, or a Handler
through its Name method or HandlerName), or any other value, for which
the switch returns the still-empty uri. -/
inductive UriHandler where
  | byName (s : String)
  | other
deriving DecidableEq

/-- The single parameter argument of URI in the two keyed branches of
the inner switch: a Go map[string]string or a url.Values. -/
inductive UriParam where
  | pmap (val : List (String × String))
  | pvalues (val : List (String × List String))
deriving DecidableEq

/-- One iteration of the parameter loop of the map branch
(echo.go:618-628): read the value under the parameter name (the zero
value if absent), delete the key if present, substitute the tagged
parameter followed by a slash everywhere, and substitute a trailing
tagged parameter. -/
def substParam (acc : String × List (String × String)) (name : String) :
    String × List (String × String) :=
  let tagS := ":" ++ name
  let v := (mlookup acc.2 name).getD ""
  let val := if (mlookup acc.2 name).isSome then mdelete acc.2 name else acc.2
  let uri := goReplace acc.1 (tagS ++ "/") (v ++ "/")
  let uri := if goHasSuffix uri tagS then goTrimSuffix uri tagS ++ v else uri
  (uri, val)

/-- One iteration of the parameter loop of the url.Values branch
(echo.go:603-611): read the first value under the parameter name,
substitute, then delete the key. -/
def substParamV (acc : String × List (String × List String)) (name : String) :
    String × List (String × List String) :=
  let tagS := ":" ++ name
  let v := vget acc.2 name
  let uri := goReplace acc.1 (tagS ++ "/") (v ++ "/")
  let uri := if goHasSuffix uri tagS then goTrimSuffix uri tagS ++ v else uri
  (uri, mdelete acc.2 name)

/-- The query-string loop of the map branch (echo.go:629-638): the keys
remaining in the map are sorted ascending and appended one by one, key
and value escaped, with a question-mark separator before the first pair
and ampersands before the later ones. -/
def queryAppend (uri : String) (val : List (String × String)) : String :=
  let keys := sortStrings (val.map Prod.fst)
  (keys.foldl
    (fun (acc : String × String) k =>
      (acc.1 ++ acc.2 ++ queryEscape k ++ "=" ++ queryEscape ((mlookup val k).getD ""), "&"))
    (uri, "?")).1

/-- Embeds url.Values.Encode from Go: keys sorted ascending, every
value listed under a key emitted as an escaped key=value pair, pairs
joined by ampersands. -/
def vencode (val : List (String × List String)) : String :=
  let keys := sortStrings (val.map Prod.fst)
  String.intercalate "&"
    (keys.flatMap
      (fun k => ((mlookup val k).getD []).map
        (fun v => queryEscape k ++ "=" ++ queryEscape v)))

/-- The body of URI once a route template has been selected, for the
two keyed parameter forms (echo.go:600-638). The final parameter state
is returned as well, since the Go code mutates the collection the
caller passed in. -/
def uriFromRoute (rt : Route) (p : UriParam) : String × UriParam :=
  match p with
  | .pmap val =>
    let st := rt.Params.foldl substParam (rt.Path, val)
    (queryAppend st.1 st.2, .pmap st.2)
  | .pvalues val =>
    let st := rt.Params.foldl substParamV (rt.Path, val)
    let q := vencode st.2
    (if 0 < q.length then st.1 ++ "?" ++ q else st.1, .pvalues st.2)

/-- Embeds Echo.URI (echo.go:582-649) for the keyed parameter forms,
with the final state of the caller-supplied collection: resolve the
handler argument to a route name, look the name up in nroute, take the
route at the first recorded index as the template, and build the path;
any failure of resolution leaves the initial empty uri. -/
def URIst (r : RouterM) (h : UriHandler) (p : UriParam) : String × UriParam :=
  match h with
  | .other => ("", p)
  | .byName name =>
    match mlookup r.nroute name with
    | some (i :: _) =>
      match r.routes.get? i with
      | some rt => uriFromRoute rt p
      | none => ("", p)
    | _ => ("", p)

/-- The string URI returns. -/
def URI (r : RouterM) (h : UriHandler) (p : UriParam) : String :=
  (URIst r h p).1

/-- The pairs of a keyed collection whose key is none of the
path-parameter names of a route: the pairs left over after
substitution, which feed the query string. -/
def leftoverPairs {α : Type} (params : List String) (val : List (String × α)) :
    List (String × α) :=
  val.filter (fun kv => !(params.contains kv.1))

/-! ## Session middleware (middleware/session/middleware.go) -/

/-- A value stored in the session, as seen by the type assertion to int
in the pre-save hook: an integer, or anything else. -/
inductive SVal where
  | vint (n : Int)
  | vother
deriving DecidableEq

/-- The reserved session key for the cookie max-age override
(middleware.go:27). -/
def CookieMaxAgeKey : String := "CookieMaxAge"

/-- Embeds the pre-save hook installed by Sessions
(middleware.go:57-66) as a function of the session contents and the
current MaxAge of the response cookie options: it returns the error of
the hook together with the MaxAge afterwards. The type assertion to int
fails when the key is absent or holds a non-integer, and then the hook
returns nil without touching the cookie; otherwise the stored value
overwrites the MaxAge exactly when it exceeds 3600 and differs from the
current value. -/
def preSaveHook (sess : List (String × SVal)) (cookieMaxAge : Int) : Option String × Int :=
  match mlookup sess CookieMaxAgeKey with
  | some (.vint maxAge) =>
    if maxAge > 3600 ∧ cookieMaxAge ≠ maxAge then (none, maxAge) else (none, cookieMaxAge)
  | _ => (none, cookieMaxAge)

/-- The per-request state the error path of the Sessions middleware
observes: the error the session Save call will report for this
request, and the log sink of the Context. -/
structure SessSt where
  saveErr : Option String
  logged : List String
deriving DecidableEq

/-- Embeds the request wrapper returned by Sessions
(middleware.go:53-79) restricted to its error flow: run the wrapped
handler, then call Save on the Sessioner; a non-nil Save error is
merged with a non-nil handler error into one message with ordinal
markers, or stands alone otherwise, and is logged; a nil Save error
leaves the handler result untouched. Session construction and hook
registration act on collaborators outside this state and have no
observable effect here. -/
def sessionsHandle (h : SessSt → Option String × SessSt) (c : SessSt) :
    Option String × SessSt :=
  let err := (h c).1
  let c1 := (h c).2
  match c1.saveErr with
  | none => (err, c1)
  | some se =>
    let msg :=
      match err with
      | some he => "Multiple errors:\n1. " ++ he ++ "\n2. " ++ se
      | none => se
    (some msg, { c1 with logged := c1.logged ++ [msg] })

/-! ## Helper lemmas -/

theorem mlookup_none_keys {α : Type} {val : List (String × α)} {k : String}
    (h : mlookup val k = none) : ∀ kv ∈ val, kv.1 ≠ k := by
  induction val with
  | nil => intro kv hkv; cases hkv
  | cons x xs ih =>
    obtain ⟨a, b⟩ := x
    intro kv hkv
    simp only [mlookup] at h
    by_cases hak : a = k
    · simp [hak] at h
    · rcases List.mem_cons.mp hkv with rfl | hkv
      · exact hak
      · exact ih (by simpa [hak] using h) kv hkv

theorem filter_self_of_mlookup_none {α : Type} {val : List (String × α)} {k : String}
    (h : mlookup val k = none) : val.filter (fun kv => kv.1 != k) = val := by
  apply List.filter_eq_self.mpr
  intro kv hkv
  simpa using mlookup_none_keys h kv hkv

theorem mlookup_append_single {α : Type} {l : List (String × α)} {k : String} (v : α)
    (h : mlookup l k = none) : mlookup (l ++ [(k, v)]) k = some v := by
  induction l with
  | nil => simp [mlookup]
  | cons x xs ih =>
    obtain ⟨a, b⟩ := x
    simp only [mlookup] at h ⊢
    by_cases hak : a = k
    · simp [hak] at h
    · simpa [hak] using ih (by simpa [hak] using h)

/-- The parameter loop of the map branch deletes exactly the pairs
keyed by a path-parameter name: the final state of the collection is
the leftover pairs. -/
theorem foldl_substParam_snd (ps : List String) (u : String) (val : List (String × String)) :
    (ps.foldl substParam (u, val)).2 = leftoverPairs ps val := by
  induction ps generalizing u val with
  | nil => simp [leftoverPairs]
  | cons p ps ih =>
    have hstep : (substParam (u, val) p).2 = val.filter (fun kv => kv.1 != p) := by
      cases h : mlookup val p with
      | none => simp [substParam, h, filter_self_of_mlookup_none h]
      | some v => simp [substParam, h, mdelete]
    show (ps.foldl substParam (substParam (u, val) p)).2 = _
    conv_lhs => rw [← Prod.mk.eta (p := substParam (u, val) p), hstep]
    rw [ih]
    simp only [leftoverPairs, List.filter_filter]
    refine List.filter_congr ?_
    intro kv _
    by_cases hk : kv.1 = p <;> simp [hk]

/-- The parameter loop of the url.Values branch deletes every
path-parameter key unconditionally: the final state of the collection
is the leftover pairs. -/
theorem foldl_substParamV_snd (ps : List String) (u : String)
    (val : List (String × List String)) :
    (ps.foldl substParamV (u, val)).2 = leftoverPairs ps val := by
  induction ps generalizing u val with
  | nil => simp [leftoverPairs]
  | cons p ps ih =>
    have hstep : (substParamV (u, val) p).2 = val.filter (fun kv => kv.1 != p) := rfl
    show (ps.foldl substParamV (substParamV (u, val) p)).2 = _
    conv_lhs => rw [← Prod.mk.eta (p := substParamV (u, val) p), hstep]
    rw [ih]
    simp only [leftoverPairs, List.filter_filter]
    refine List.filter_congr ?_
    intro kv _
    by_cases hk : kv.1 = p <;> simp [hk]

/-! ## Claim theorems -/

/-- Claim C1, amended: on an Echo dispatching through the default
router, after Use(mw) the next dispatch through ServeHTTP executes mw
provided no composed chain was cached when that dispatch builds the
chain (Use itself does not invalidate a cached chain); and after
Clear() the next dispatch executes none of the previously registered
global middleware, including when a chain was cached before the
Clear. -/
theorem use_clear_next_dispatch (e : EchoSt) (i : Nat) (hh : e.head = none) :
    Ev.mwEnter i ∈ ((e.use [i]).serveHTTP).2 ∧
    ∀ (e2 : EchoSt) (j : Nat), Ev.mwEnter j ∉ ((e2.clear).serveHTTP).2 := by
  constructor
  · have hh2 : (e.use [i]).head = none := hh
    obtain ⟨c, htr, -⟩ := serveHTTP_trace_of_head_none (e.use [i]) hh2
    rw [htr]
    have hmem : Ev.mwEnter i ∈ (e.use [i]).middleware.map Ev.mwEnter := by
      simp [EchoSt.use]
    simp only [List.append_assoc, List.mem_append]
    exact Or.inr (Or.inl hmem)
  · intro e2 j
    obtain ⟨c, htr, -⟩ := serveHTTP_trace_of_head_none e2.clear rfl
    rw [htr]
    show Ev.mwEnter j ∉ _
    cases hrr : e2.routeResult <;>
      simp [EchoSt.clear, hrr]

/-- Claim C1 counterexample: on an instance whose chain was already
built and cached by a first dispatch, a subsequent Use(7) is not
reflected by the next dispatch; its trace holds no entry event for
middleware 7, contradicting the claim in the cached-Use case. -/
theorem use_cached_chain_counterexample :
    ((((⟨[], none, none, [], 0⟩ : EchoSt).serveHTTP).1.use [7]).serveHTTP).2 =
      [Ev.reset 0, Ev.route, Ev.put 0] ∧
    Ev.mwEnter 7 ∉ ((((⟨[], none, none, [], 0⟩ : EchoSt).serveHTTP).1.use [7]).serveHTTP).2 := by
  constructor
  · rfl
  · decide

/-- Concrete instance of the amended claim C1. -/
theorem use_clear_next_dispatch_witness :
    Ev.mwEnter 7 ∈ (((⟨[3], none, none, [], 0⟩ : EchoSt).use [7]).serveHTTP).2 ∧
    Ev.mwEnter 3 ∉ (((⟨[3], none, none, [], 0⟩ : EchoSt).clear).serveHTTP).2 :=
  ⟨(use_clear_next_dispatch ⟨[3], none, none, [], 0⟩ 7 rfl).1,
   (use_clear_next_dispatch ⟨[3], none, none, [], 0⟩ 0 rfl).2 ⟨[3], none, none, [], 0⟩ 3⟩

/-- Claim C3: the chain builder wraps the terminal handler iterating
the middleware list from last to first, so the first middleware of the
list is outermost, and a dispatch that builds its chain executes the
middleware in registration order, then the router terminal, and
releases the Context after an optional error event. -/
theorem chain_registration_order :
    (∀ (m : MW) (ms : List MW) (terminal : Hdl),
        chainList (m :: ms) terminal = m (chainList ms terminal)) ∧
    (∀ (ids : List Nat) (res : Option String) (t : List Ev),
        chainList (ids.map mwTag) (routerTerminal res) t =
          (t ++ ids.map Ev.mwEnter ++ [Ev.route], res)) ∧
    (∀ e : EchoSt, e.head = none → ∃ c,
        (e.serveHTTP).2 =
          [Ev.reset c] ++ e.middleware.map Ev.mwEnter ++ [Ev.route] ++
            (match e.routeResult with | some m => [Ev.ctxError c m] | none => []) ++
            [Ev.put c]) :=
  ⟨fun _ _ _ => rfl, chainList_tag_trace,
   fun e hh => (serveHTTP_trace_of_head_none e hh).imp (fun _ hc => hc.1)⟩

/-- Concrete instance of claim C3: middleware 1 registered before
middleware 2 runs first. -/
theorem chain_registration_order_witness :
    ∃ c, ((⟨[1, 2], none, none, [], 0⟩ : EchoSt).serveHTTP).2 =
      [Ev.reset c, Ev.mwEnter 1, Ev.mwEnter 2, Ev.route, Ev.put c] := by
  obtain ⟨c, hc⟩ := chain_registration_order.2.2 ⟨[1, 2], none, none, [], 0⟩ rfl
  exact ⟨c, by simpa using hc⟩

/-- Claim C2, state evidence: the lookup-or-create core of Echo.Host is
idempotent on the hosts map, so a second call with the same name adds
no fresh entry and preserves the stored Host; the claim itself fails at
the return statement of Echo.Host, which names the identifier g that
the function never defines, so the stored instance is not what the
call returns. -/
theorem echoHost_state_idempotent :
    (∀ (hosts : List (String × HostM)) (name : String),
        echoHost (echoHost hosts name []) name [] = echoHost hosts name []) ∧
    echoHost [] "api.example.com" [] =
      [("api.example.com", ⟨"api.example.com", []⟩)] := by
  constructor
  · intro hosts name
    cases h : mlookup hosts name with
    | some v => simp [echoHost, h]
    | none =>
      have h2 : mlookup (hosts ++ [(name, (⟨name, []⟩ : HostM))]) name =
          some ⟨name, []⟩ := mlookup_append_single _ h
      simp [echoHost, h, h2]
  · rfl

/-- Claim C4: findRouter returns the host-specific router on an exact
entry; otherwise the router of a registered pattern that is strictly
shorter in bytes and either starts with a period and is a suffix of the
host or ends with a period and is a prefix of the host; otherwise the
default router. The pattern .example.com matches foo.example.com and
a.b.example.com but not example.com, and the pattern api. matches
api.internal but not myapi.internal. -/
theorem findRouter_resolution :
    (∀ (routers : List (String × Nat)) (d : Nat) (host : String) (r : Nat),
        mlookup routers host = some r → findRouter routers d host = (r, true)) ∧
    (∀ (routers : List (String × Nat)) (d : Nat) (host : String) (p : String × Nat),
        mlookup routers host = none →
        routers.find? (fun q => hostPatMatch host q.1) = some p →
        findRouter routers d host = (p.2, true) ∧ hostPatMatch host p.1 = true ∧
          p ∈ routers) ∧
    (∀ (routers : List (String × Nat)) (d : Nat) (host : String),
        mlookup routers host = none →
        routers.find? (fun q => hostPatMatch host q.1) = none →
        findRouter routers d host = (d, false)) ∧
    (hostPatMatch "foo.example.com" ".example.com" = true ∧
     hostPatMatch "a.b.example.com" ".example.com" = true ∧
     hostPatMatch "example.com" ".example.com" = false ∧
     hostPatMatch "api.internal" "api." = true ∧
     hostPatMatch "myapi.internal" "api." = false) := by
  refine ⟨?_, ?_, ?_, by decide, by decide, by decide, by decide, by decide⟩
  · intro routers d host r h
    cases routers with
    | nil => simp [mlookup] at h
    | cons x xs => simp [findRouter, h]
  · intro routers d host p h hf
    cases routers with
    | nil => simp at hf
    | cons x xs =>
      refine ⟨by simp [findRouter, h, hf], by simpa using List.find?_some hf,
        List.mem_of_find?_eq_some hf⟩
  · intro routers d host h hf
    cases routers with
    | nil => simp [findRouter]
    | cons x xs => simp [findRouter, h, hf]

/-- Concrete instance of claim C4: exact, wildcard-suffix and
no-match resolutions. -/
theorem findRouter_resolution_witness :
    findRouter [("example.com", 1), (".example.com", 2)] 0 "example.com" = (1, true) ∧
    findRouter [(".example.com", 2)] 0 "foo.example.com" = (2, true) ∧
    findRouter [(".example.com", 2)] 0 "example.com" = (0, false) :=
  ⟨findRouter_resolution.1 _ 0 _ 1 (by decide),
   (findRouter_resolution.2.1 _ 0 _ (".example.com", 2) (by decide) (by decide)).1,
   findRouter_resolution.2.2.1 _ 0 _ (by decide) (by decide)⟩

/-- Claim C5: for the route registered as /user/:id under the name
getUser, URI with the map holding id to 42 returns /user/42; and for
every map argument, the keys not matching a path-parameter name are
exactly the pairs the query string is built from, appended after the
substituted path with the keys in ascending order and keys and values
escaped. -/
theorem uri_map_generation :
    URI ⟨[⟨"/user/:id", ["id"], "", "getUser"⟩], [("getUser", [0])]⟩
        (.byName "getUser") (.pmap [("id", "42")]) = "/user/42" ∧
    (∀ (rt : Route) (val : List (String × String)),
        uriFromRoute rt (.pmap val) =
          (queryAppend (rt.Params.foldl substParam (rt.Path, val)).1
              (leftoverPairs rt.Params val),
           .pmap (leftoverPairs rt.Params val)) ∧
        List.Pairwise (fun a b => strLe a b = true)
          (sortStrings ((leftoverPairs rt.Params val).map Prod.fst)) ∧
        ∀ k ∈ (leftoverPairs rt.Params val).map Prod.fst,
          rt.Params.contains k = false) := by
  constructor
  · decide
  · intro rt val
    refine ⟨?_, sorted_sortStrings _, ?_⟩
    · simp only [uriFromRoute, foldl_substParam_snd]
    · intro k hk
      simp only [leftoverPairs, List.mem_map, List.mem_filter] at hk
      obtain ⟨kv, ⟨-, hkv⟩, rfl⟩ := hk
      simpa using hkv

/-- Concrete instance of the universal part of claim C5: a leftover key
is not a parameter name, and the query string is appended escaped. -/
theorem uri_map_generation_witness :
    (⟨"/user/:id", ["id"], "", "getUser"⟩ : Route).Params.contains "q" = false ∧
    uriFromRoute ⟨"/user/:id", ["id"], "", "getUser"⟩
        (.pmap [("id", "42"), ("q", "x y")]) =
      ("/user/42?q=x+y", .pmap [("q", "x y")]) := by
  have h := uri_map_generation.2 ⟨"/user/:id", ["id"], "", "getUser"⟩
    [("id", "42"), ("q", "x y")]
  refine ⟨h.2.2 "q" (by decide), ?_⟩
  rw [h.1]
  decide

/-- Claim C6: URI returns the empty string when no route is registered
under the resolved name, and when several routes share the name it uses
only the route at the first recorded index as the template, ignoring
the later indices. -/
theorem uri_name_lookup (r : RouterM) (name : String) (p : UriParam) :
    (mlookup r.nroute name = none → URIst r (.byName name) p = ("", p)) ∧
    (mlookup r.nroute name = some [] → URIst r (.byName name) p = ("", p)) ∧
    (∀ (i : Nat) (rest : List Nat), mlookup r.nroute name = some (i :: rest) →
        URIst r (.byName name) p =
          (match r.routes.get? i with
           | some rt => uriFromRoute rt p
           | none => ("", p))) := by
  refine ⟨fun h => ?_, fun h => ?_, fun i rest h => ?_⟩ <;> simp [URIst, h]

/-- Concrete instance of claim C6: two routes named n, URI built from
the first only; a missing name gives the empty string. -/
theorem uri_name_lookup_witness :
    URIst ⟨[⟨"/a", [], "", "n"⟩, ⟨"/b", [], "", "n"⟩], [("n", [0, 1])]⟩
        (.byName "n") (.pmap []) = ("/a", .pmap []) ∧
    URI ⟨[], []⟩ (.byName "missing") (.pmap []) = "" := by
  constructor
  · have h := (uri_name_lookup ⟨[⟨"/a", [], "", "n"⟩, ⟨"/b", [], "", "n"⟩], [("n", [0, 1])]⟩
      "n" (.pmap [])).2.2 0 [1] (by decide)
    rw [h]
    decide
  · have h := (uri_name_lookup ⟨[], []⟩ "missing" (.pmap [])).1 rfl
    simp [URI, h]

/-- Claim C10: once URI has matched a route template, the caller's
collection is mutated in place: after the call it holds exactly the
pairs whose key is not a path-parameter name of that route, for both
the map form and the url.Values form. -/
theorem uri_mutates_collection (r : RouterM) (name : String) (i : Nat) (rest : List Nat)
    (rt : Route) (h1 : mlookup r.nroute name = some (i :: rest))
    (h2 : r.routes.get? i = some rt) :
    (∀ val : List (String × String),
        (URIst r (.byName name) (.pmap val)).2 = .pmap (leftoverPairs rt.Params val)) ∧
    (∀ val : List (String × List String),
        (URIst r (.byName name) (.pvalues val)).2 =
          .pvalues (leftoverPairs rt.Params val)) := by
  have h2g : r.routes[i]? = some rt := by simpa using h2
  constructor
  · intro val
    simp [URIst, h1, h2g, uriFromRoute, foldl_substParam_snd]
  · intro val
    simp [URIst, h1, h2g, uriFromRoute, foldl_substParamV_snd]

/-- Concrete instance of claim C10: the parameter key id is removed
from the caller's map, the leftover key q stays. -/
theorem uri_mutates_collection_witness :
    (URIst ⟨[⟨"/user/:id", ["id"], "", "getUser"⟩], [("getUser", [0])]⟩
        (.byName "getUser") (.pmap [("id", "42"), ("q", "1")])).2 =
      .pmap [("q", "1")] := by
  have h := (uri_mutates_collection
      ⟨[⟨"/user/:id", ["id"], "", "getUser"⟩], [("getUser", [0])]⟩
      "getUser" 0 [] ⟨"/user/:id", ["id"], "", "getUser"⟩ (by decide) rfl).1
    [("id", "42"), ("q", "1")]
  rw [h]
  decide

/-- Claim C7: the Sessions wrapper merges a handler error and a Save
error into one message with ordinal markers and logs it; a Save error
alone is returned and logged; a successful Save leaves the handler
result untouched. -/
theorem sessions_error_flow (h : SessSt → Option String × SessSt) (c : SessSt) :
    (∀ (e1 e2 : String) (c1 : SessSt), h c = (some e1, c1) → c1.saveErr = some e2 →
        sessionsHandle h c =
          (some ("Multiple errors:\n1. " ++ e1 ++ "\n2. " ++ e2),
           { c1 with logged := c1.logged ++ ["Multiple errors:\n1. " ++ e1 ++ "\n2. " ++ e2] })) ∧
    (∀ (e2 : String) (c1 : SessSt), h c = (none, c1) → c1.saveErr = some e2 →
        sessionsHandle h c = (some e2, { c1 with logged := c1.logged ++ [e2] })) ∧
    (∀ (res : Option String) (c1 : SessSt), h c = (res, c1) → c1.saveErr = none →
        sessionsHandle h c = (res, c1)) := by
  refine ⟨fun e1 e2 c1 hh hs => ?_, fun e2 c1 hh hs => ?_, fun res c1 hh hs => ?_⟩ <;>
    simp [sessionsHandle, hh, hs]

/-- Concrete instance of claim C7: both errors merged and logged. -/
theorem sessions_error_flow_witness :
    sessionsHandle (fun _ => (some "ha", ⟨some "sa", []⟩)) ⟨none, []⟩ =
      (some "Multiple errors:\n1. ha\n2. sa",
       ⟨some "sa", ["Multiple errors:\n1. ha\n2. sa"]⟩) := by
  have h := (sessions_error_flow (fun _ => (some "ha", (⟨some "sa", []⟩ : SessSt)))
    ⟨none, []⟩).1 "ha" "sa" ⟨some "sa", []⟩ rfl rfl
  rw [h]
  decide

/-- Claim C8: every dispatch puts the Context it acquired back into the
pool, both when the chain returns nil and when it returns an error, and
in the error case the error is handed to the Error method of the
Context before the Context is released. -/
theorem serveHTTP_pool_release (e e1 e2 : EchoSt) (c : Nat) (h : Hdl) (t : List Ev)
    (err : Option String)
    (hg : e.poolGet = (c, e1)) (hc : e1.chainMiddleware = (h, e2))
    (hr : h [Ev.reset c] = (t, err)) :
    c ∈ (e.serveHTTP).1.pool ∧
    (err = none → (e.serveHTTP).2 = t ++ [Ev.put c]) ∧
    (∀ m, err = some m → (e.serveHTTP).2 = t ++ [Ev.ctxError c m, Ev.put c]) := by
  have hs : e.serveHTTP =
      (match err with
       | some msg => (e2.poolPut c, t ++ [Ev.ctxError c msg, Ev.put c])
       | none => (e2.poolPut c, t ++ [Ev.put c])) := by
    simp only [EchoSt.serveHTTP, hg, hc, hr]
    cases err <;> rfl
  cases err with
  | none => simp [hs, EchoSt.poolPut]
  | some m => simp [hs, EchoSt.poolPut]

/-- Concrete instance of claim C8: a failing route handler still ends
with the Context back in the pool, after the error event. -/
theorem serveHTTP_pool_release_witness :
    5 ∈ ((⟨[], none, some "boom", [5], 0⟩ : EchoSt).serveHTTP).1.pool ∧
    ((⟨[], none, some "boom", [5], 0⟩ : EchoSt).serveHTTP).2 =
      [Ev.reset 5, Ev.route] ++ [Ev.ctxError 5 "boom", Ev.put 5] := by
  have hth := serveHTTP_pool_release
    ⟨[], none, some "boom", [5], 0⟩ ⟨[], none, some "boom", [], 0⟩
    ⟨[], some (chainList (List.map mwTag []) (routerTerminal (some "boom"))),
      some "boom", [], 0⟩
    5 (chainList (List.map mwTag []) (routerTerminal (some "boom")))
    [Ev.reset 5, Ev.route] (some "boom") rfl rfl rfl
  exact ⟨hth.1, hth.2.2 "boom" rfl⟩

/-- Claim C9: the pre-save hook always returns nil; when the reserved
key holds an integer it overwrites the MaxAge of the cookie options
with that value exactly when the value exceeds 3600 and differs from
the current MaxAge, and otherwise, or when the key is absent or holds a
non-integer, the cookie options are unchanged. -/
theorem presave_hook_maxage (sess : List (String × SVal)) (cur : Int) :
    (preSaveHook sess cur).1 = none ∧
    (∀ m : Int, mlookup sess CookieMaxAgeKey = some (.vint m) →
        ((m > 3600 ∧ cur ≠ m) → (preSaveHook sess cur).2 = m) ∧
        (¬(m > 3600 ∧ cur ≠ m) → (preSaveHook sess cur).2 = cur)) ∧
    (mlookup sess CookieMaxAgeKey = none → (preSaveHook sess cur).2 = cur) ∧
    (mlookup sess CookieMaxAgeKey = some .vother → (preSaveHook sess cur).2 = cur) := by
  refine ⟨?_, fun m hm => ⟨fun hcond => ?_, fun hcond => ?_⟩, fun hm => ?_, fun hm => ?_⟩
  · cases hm : mlookup sess CookieMaxAgeKey with
    | none => simp [preSaveHook, hm]
    | some v =>
      cases v with
      | vother => simp [preSaveHook, hm]
      | vint m =>
        by_cases hcond : m > 3600 ∧ cur ≠ m <;> simp [preSaveHook, hm, hcond]
  · simp [preSaveHook, hm, hcond]
  · simp [preSaveHook, hm, hcond]
  · simp [preSaveHook, hm]
  · simp [preSaveHook, hm]

/-- Concrete instance of claim C9: a stored 7200 overrides a current 0,
a non-integer value leaves it unchanged, and the hook reports nil. -/
theorem presave_hook_maxage_witness :
    preSaveHook [("CookieMaxAge", .vint 7200)] 0 = (none, 7200) ∧
    preSaveHook [("CookieMaxAge", .vother)] 0 = (none, 0) := by
  have h1 := presave_hook_maxage [("CookieMaxAge", .vint 7200)] 0
  have h2 := presave_hook_maxage [("CookieMaxAge", .vother)] 0
  constructor
  · rw [Prod.ext_iff]
    exact ⟨h1.1, (h1.2.1 7200 (by decide)).1 ⟨by decide, by decide⟩⟩
  · rw [Prod.ext_iff]
    exact ⟨h2.1, h2.2.2.2 (by decide)⟩
